import Mathlib

/-!
Shallow embedding of the Zomato dashboard data pipeline (src/code.py).

The program is a pandas/Streamlit script.  We embed its table model and each
pipeline stage as executable Lean functions:

  - a `Table` is an ordered list of rows over a fixed column list; a cell is a
    `Val` (a rational number, a string, or `null`, the embedding of NaN);
  - the cleaning block (lines 27-31) is `cleanTable` (duplicated keys via a
    seen-set, as pandas duplicated() computes its mask, then dropna over the
    required columns present);
  - the sidebar filter (lines 38-44) is `filter_by_values`;
  - the metrics block (lines 52-55) is `compute_metrics`, returning `Except`
    because two of its accesses can raise in Python;
  - the chart blocks are series-builder stages: `top_n_frequency`
    (value_counts().head, lines 63 and 75), `grouped_mean` (groupby mean,
    line 116, whose keys pandas sorts ascending), and the histogram and
    grouped-mean stages with the presence guards exactly as in the script;
  - the inplace mutation of the cleaning block is modelled by a small heap of
    tables (`PState`) with the script statements as state transformers.
-/

/-- A scalar cell value: a (rational) number, a string, or missing (NaN/None). -/
inductive Val where
  | num (q : Rat)
  | str (s : String)
  | null
deriving DecidableEq, Repr

/-- True exactly on numeric cells. -/
def Val.isNum : Val → Bool
  | .num _ => true
  | _ => false

/-- A row maps column names to cell values (association list). -/
abbrev Row := List (String × Val)

/-- A table: normalized column names plus an ordered list of rows
(spec section 3: an ordered sequence of rows sharing one column set). -/
structure Table where
  cols : List String
  rows : List Row
deriving DecidableEq, Repr

/-- Cell access; a column not stored in the row reads as missing. -/
def getVal (r : Row) (c : String) : Val :=
  match r.find? (fun p => p.1 == c) with
  | some p => p.2
  | none => .null

/-- Column of values of `c`, in row order (the pandas series df[c]). -/
def colVals (t : Table) (c : String) : List Val :=
  t.rows.map (fun r => getVal r c)

/-- Non-missing values of column `c`, in row order (df[c].dropna()). -/
def presentVals (t : Table) (c : String) : List Val :=
  (colVals t c).filter (fun v => v ≠ Val.null)

/-- Numeric values of column `c`, in row order (what pandas numeric
aggregations see after skipping NaN). -/
def numVals (t : Table) (c : String) : List Rat :=
  (colVals t c).filterMap (fun v => match v with | .num q => some q | _ => none)

/-- Stable first-occurrence deduplication by a key function, carrying the set
of keys already seen; this is how pandas duplicated()/drop_duplicates and the
value_counts hash table walk the data. -/
def dedupFirst (f : α → Val) (seen : List Val) : List α → List α
  | [] => []
  | x :: xs =>
    if f x ∈ seen then dedupFirst f seen xs
    else x :: dedupFirst f (f x :: seen) xs

/-- Required columns of the cleaning block (src/code.py line 30). -/
def requiredCols : List String := ["city", "cuisines", "aggregate_rating"]

/-- A row passes dropna(subset=drop_cols) when no required column that the
table actually has is missing in it (line 30: drop_cols keeps only the
required columns present in df). -/
def rowComplete (cols : List String) (r : Row) : Bool :=
  (requiredCols.filter (fun c => cols.contains c)).all
    (fun c => getVal r c ≠ Val.null)

/-- The cleaning block, lines 27-31: drop_duplicates(subset=restaurant_id)
when that column exists, then dropna over the required columns present. -/
def cleanTable (t : Table) : Table :=
  let rows1 :=
    if "restaurant_id" ∈ t.cols then dedupFirst (fun r => getVal r "restaurant_id") [] t.rows
    else t.rows
  ⟨t.cols, rows1.filter (rowComplete t.cols)⟩

/-- The sidebar filter, lines 38-44: only acts when the city column exists
and the selection is non-empty (an empty multiselect leaves df untouched);
otherwise keeps the rows whose value is a member of the selection
(df[df[city].isin(selected)]). -/
def filter_by_values (t : Table) (col : String) (allowed : List Val) : Table :=
  if col ∈ t.cols then
    if allowed ≠ [] then
      ⟨t.cols, t.rows.filter (fun r => allowed.contains (getVal r col))⟩
    else t
  else t

/-- Python round() at two decimal places (banker rounding, ties to even). -/
def roundHalfEven (q : Rat) : Int :=
  let f : Int := q.floor
  let frac : Rat := q - f
  if frac < 1/2 then f
  else if 1/2 < frac then f + 1
  else if f % 2 = 0 then f else f + 1

/-- Rounds to two decimal places as round(x, 2) does. -/
def round2 (q : Rat) : Rat := (roundHalfEven (q * 100) : Rat) / 100

/-- Python int() on a finite float: truncation toward zero. -/
def pyInt (q : Rat) : Int := Int.tdiv q.num q.den

/-- The four overview metrics of lines 52-55. `avg_rating` is an Option: none
embeds the NaN that pandas mean() yields on an empty or all-missing column
(the sentinel absence of the spec). -/
structure Metrics where
  row_count : Nat
  avg_rating : Option Rat
  total_votes : Int
  avg_cost : Int
deriving DecidableEq, Repr

/-- The metrics block, lines 52-55, in evaluation order.  Line 53 reads
df[aggregate_rating] without a presence guard, so a missing rating column is
a KeyError; round() tolerates the NaN mean of an empty column.  Line 54 is
guarded and int() of the 0.0 sum of an empty votes column is fine.  Line 55
is guarded, but int() of the NaN mean of an empty (or all-missing) cost
column raises ValueError. -/
def compute_metrics (t : Table) : Except String Metrics :=
  if "aggregate_rating" ∈ t.cols then
    let ratings := numVals t "aggregate_rating"
    let avg_rating : Option Rat :=
      if ratings.isEmpty then none else some (round2 (ratings.sum / (ratings.length : Rat)))
    let total_votes : Int :=
      if "votes" ∈ t.cols then pyInt (numVals t "votes").sum else 0
    if "average_cost_for_two" ∈ t.cols then
      let costs := numVals t "average_cost_for_two"
      if costs.isEmpty then
        Except.error "ValueError: cannot convert float NaN to integer"
      else
        Except.ok ⟨t.rows.length, avg_rating, total_votes, pyInt (costs.sum / (costs.length : Rat))⟩
    else
      Except.ok ⟨t.rows.length, avg_rating, total_votes, 0⟩
  else
    Except.error "KeyError: aggregate_rating"

/-- Descending-count order with ties broken by the position of the first
occurrence of the value in the column: the order value_counts() emits, since
it counts in first-occurrence order and then sorts by count descending. -/
def countOrd (vals : List Val) (a b : Val × Nat) : Prop :=
  b.2 < a.2 ∨ (a.2 = b.2 ∧ vals.indexOf a.1 ≤ vals.indexOf b.1)

instance (vals : List Val) : DecidableRel (countOrd vals) := fun a b => by
  unfold countOrd; infer_instance

/-- Lines 63 and 75: df[col].value_counts().head(n).  Counts each distinct
non-missing value (value_counts drops NaN), sorts by count descending with
ties in first-occurrence order, and keeps the first n entries.  The column
access sits under the presence guard of the script (lines 62 and 74). -/
def top_n_frequency (t : Table) (col : String) (n : Nat) : List (Val × Nat) :=
  if col ∈ t.cols then
    let vals := presentVals t col
    let counted := (dedupFirst id [] vals).map (fun v => (v, vals.count v))
    (List.insertionSort (countOrd vals) counted).take n
  else []

/-- Boolean total order on cell values used when pandas sorts group keys:
numbers by numeric order, strings lexicographically, missing first, numbers
before strings across types. -/
def Val.leB : Val → Val → Bool
  | .null, _ => true
  | .num _, .null => false
  | .num a, .num b => decide (a ≤ b)
  | .num _, .str _ => true
  | .str _, .null => false
  | .str _, .num _ => false
  | .str a, .str b => decide (a ≤ b)

/-- The propositional form of `Val.leB`. -/
def Val.le (a b : Val) : Prop := Val.leB a b = true

instance : DecidableRel Val.le := fun a b =>
  inferInstanceAs (Decidable (Val.leB a b = true))

/-- Strict version of `Val.le`. -/
def Val.ltv (a b : Val) : Prop := Val.le a b ∧ a ≠ b

/-- Rows of the group of key `k` (the rows a pandas groupby gathers for one
group key). -/
def groupRows (t : Table) (g : String) (k : Val) : List Row :=
  t.rows.filter (fun r => getVal r g == k)

/-- Mean of the numeric entries of a list of cells, missing entries skipped;
null embeds the NaN a pandas mean yields when nothing remains. -/
def meanVal (vs : List Val) : Val :=
  let nums := vs.filterMap (fun v => match v with | .num q => some q | _ => none)
  if nums.isEmpty then Val.null else Val.num (nums.sum / (nums.length : Rat))

/-- Line 116: df.groupby(g)[v].mean().reset_index().  Groupby drops missing
group keys (dropna=True) and sorts the group keys ascending (sort=True, the
pandas default); within each group the mean skips missing values. -/
def grouped_mean (t : Table) (g v : String) : List (Val × Val) :=
  let keys := dedupFirst id [] (presentVals t g)
  let skeys := List.insertionSort Val.le keys
  skeys.map (fun k => (k, meanVal ((groupRows t g k).map (fun r => getVal r v))))

/-- Modelled from the spec: the px.histogram binning itself lives in the
charting library, which is not part of src/, so the buckets follow section
4.5 of the spec: the numeric range of the column is split into equal-width
buckets and each bucket carries its boundaries and the count of rows whose
value falls in it; missing values are excluded. -/
def histogram_buckets (xs : List Rat) (nbins : Nat) : List ((Rat × Rat) × Nat) :=
  match xs, nbins with
  | [], _ => []
  | _, 0 => []
  | x :: rest, Nat.succ m =>
    let lo := rest.foldl min x
    let hi := rest.foldl max x
    let w := (hi - lo) / ((Nat.succ m : Nat) : Rat)
    (List.range (Nat.succ m)).map (fun i =>
      let a := lo + w * (i : Rat)
      let b := lo + w * ((i : Rat) + 1)
      ((a, b),
        (xs.filter (fun y => decide (a ≤ y) && (decide (y < b) || decide (i + 1 = Nat.succ m)))).length))

/-- Lines 62-69: the Top 10 Cities chart renders only under the city presence
guard; absent column means no chart at all (none). -/
def top_cities_stage (t : Table) : Option (List (Val × Nat)) :=
  if "city" ∈ t.cols then some (top_n_frequency t "city" 10) else none

/-- Lines 74-81: the Top 10 Cuisines chart under the cuisines presence guard. -/
def top_cuisines_stage (t : Table) : Option (List (Val × Nat)) :=
  if "cuisines" ∈ t.cols then some (top_n_frequency t "cuisines" 10) else none

/-- Lines 86-88: the rating distribution histogram is built with no presence
guard, so a table without the rating column makes px.histogram raise. -/
def rating_hist_stage (t : Table) : Except String (List ((Rat × Rat) × Nat)) :=
  if "aggregate_rating" ∈ t.cols then
    Except.ok (histogram_buckets (numVals t "aggregate_rating") 20)
  else
    Except.error "ValueError: aggregate_rating is not a column of the data frame"

/-- Lines 115-116: the price-range chart is guarded on price_range only; with
price_range present but the rating column absent, the groupby column
selection raises KeyError. -/
def price_rating_stage (t : Table) : Except String (Option (List (Val × Val))) :=
  if "price_range" ∈ t.cols then
    if "aggregate_rating" ∈ t.cols then
      Except.ok (some (grouped_mean t "price_range" "aggregate_rating"))
    else Except.error "KeyError: aggregate_rating"
  else Except.ok none

/-- Heap model for the mutation behaviour of the script: the tables live in a
heap of table objects and df is a reference into it. -/
structure PState where
  heap : List Table
  dfRef : Nat
deriving DecidableEq, Repr

/-- Reads a heap slot. -/
def heapGet (h : List Table) (r : Nat) : Table := h.getD r ⟨[], []⟩

/-- Overwrites a heap slot. -/
def heapSet (h : List Table) (r : Nat) (t : Table) : List Table := h.set r t

/-- Line 21: the loaded table is allocated once and df refers to it. -/
def load_stmt (t : Table) : PState := ⟨[t], 0⟩

/-- Lines 27-28: df.drop_duplicates(subset=restaurant_id, inplace=True)
under the presence guard; inplace=True overwrites the object df refers to. -/
def dedup_stmt (s : PState) : PState :=
  let t := heapGet s.heap s.dfRef
  if "restaurant_id" ∈ t.cols then
    ⟨heapSet s.heap s.dfRef ⟨t.cols, dedupFirst (fun r => getVal r "restaurant_id") [] t.rows⟩,
     s.dfRef⟩
  else s

/-- Lines 30-31: df.dropna(subset=drop_cols, inplace=True); again an in-place
overwrite of the object df refers to. -/
def dropna_stmt (s : PState) : PState :=
  let t := heapGet s.heap s.dfRef
  ⟨heapSet s.heap s.dfRef ⟨t.cols, t.rows.filter (rowComplete t.cols)⟩, s.dfRef⟩

/-- Lines 38-44: df = df[df[city].isin(selected)] allocates a new table and
rebinds df to it; the previous object is left as it is. -/
def filter_stmt (sel : List Val) (s : PState) : PState :=
  let t := heapGet s.heap s.dfRef
  if "city" ∈ t.cols ∧ sel ≠ [] then
    ⟨s.heap ++ [⟨t.cols, t.rows.filter (fun r => sel.contains (getVal r "city"))⟩],
     s.heap.length⟩
  else s

/-- Rows of `t` whose value in column `c` is present (used to state that
missing keys do not contribute to derived series). -/
def dropNullRows (t : Table) (c : String) : Table :=
  ⟨t.cols, t.rows.filter (fun r => getVal r c ≠ Val.null)⟩

/-- A one-row table having only a city column. -/
def sampleCity : Table := ⟨["city"], [[("city", Val.str "A")]]⟩

/-- A one-row table with a single column named a. -/
def sampleA : Table := ⟨["a"], [[("a", Val.num 1)]]⟩

/-- An empty table having only the rating column. -/
def sampleEmptyRating : Table := ⟨["aggregate_rating"], []⟩

/-- An empty table having the rating and cost columns. -/
def sampleEmptyRatingCost : Table := ⟨["aggregate_rating", "average_cost_for_two"], []⟩

/-- A two-row table whose price_range keys appear in descending order. -/
def samplePriceRating : Table :=
  ⟨["price_range", "aggregate_rating"],
   [[("price_range", Val.num 2), ("aggregate_rating", Val.num 1)],
    [("price_range", Val.num 1), ("aggregate_rating", Val.num 3)]]⟩

/-- A table with two identical rows under the key column. -/
def sampleDupKeys : Table :=
  ⟨["restaurant_id"], [[("restaurant_id", Val.num 1)], [("restaurant_id", Val.num 1)]]⟩

/-- An empty table having only the price_range column. -/
def samplePriceOnly : Table := ⟨["price_range"], []⟩

/-- An empty table with one unrelated column. -/
def sampleMisc : Table := ⟨["x"], []⟩

/-! Lemmas about stable first-occurrence deduplication. -/

theorem dedupFirst_sublist (f : α → Val) (seen : List Val) (l : List α) :
    (dedupFirst f seen l).Sublist l := by
  induction l generalizing seen with
  | nil => simp [dedupFirst]
  | cons x xs ih =>
    simp only [dedupFirst]
    split
    · exact (ih seen).trans (List.sublist_cons_self x xs)
    · exact (ih _).cons₂ x

theorem mem_dedupFirst_not_seen {f : α → Val} {seen : List Val} {l : List α} {x : α}
    (hx : x ∈ dedupFirst f seen l) : f x ∉ seen := by
  induction l generalizing seen with
  | nil => simp [dedupFirst] at hx
  | cons y ys ih =>
    simp only [dedupFirst] at hx
    split at hx
    · exact ih hx
    · rcases List.mem_cons.mp hx with h | h
      · subst h; assumption
      · intro hc
        exact (ih h) (List.mem_cons_of_mem _ hc)

theorem dedupFirst_pairwise (f : α → Val) (seen : List Val) (l : List α) :
    (dedupFirst f seen l).Pairwise (fun a b => f a ≠ f b) := by
  induction l generalizing seen with
  | nil => simp [dedupFirst]
  | cons y ys ih =>
    simp only [dedupFirst]
    split
    · exact ih seen
    · refine List.Pairwise.cons ?_ (ih _)
      intro b hb hfb
      exact (mem_dedupFirst_not_seen hb) (hfb ▸ List.mem_cons_self _ _)

theorem dedupFirst_eq_self {f : α → Val} {l : List α}
    (hpw : l.Pairwise fun a b => f a ≠ f b) :
    ∀ {seen : List Val}, (∀ x ∈ l, f x ∉ seen) → dedupFirst f seen l = l := by
  induction l with
  | nil => intro seen _; rfl
  | cons y ys ih =>
    intro seen hseen
    rcases List.pairwise_cons.mp hpw with ⟨hy, htail⟩
    have hyseen : f y ∉ seen := hseen y (List.mem_cons_self _ _)
    simp only [dedupFirst, if_neg hyseen]
    congr 1
    refine ih htail ?_
    intro x hx
    intro hc
    rcases List.mem_cons.mp hc with h | h
    · exact hy x hx h.symm
    · exact hseen x (List.mem_cons_of_mem _ hx) h

theorem find?_eq_of_mem_dedupFirst {f : α → Val} {seen : List Val} {l : List α} {x : α}
    (hx : x ∈ dedupFirst f seen l) :
    l.find? (fun y => f y == f x) = some x := by
  induction l generalizing seen with
  | nil => simp [dedupFirst] at hx
  | cons y ys ih =>
    by_cases hy : f y ∈ seen
    · rw [dedupFirst, if_pos hy] at hx
      have hne : (f y == f x) = false := by
        refine Bool.eq_false_iff.mpr ?_
        intro hc
        exact (mem_dedupFirst_not_seen hx) (beq_iff_eq.mp hc ▸ hy)
      simp only [List.find?_cons, hne]
      exact ih hx
    · rw [dedupFirst, if_neg hy] at hx
      rcases List.mem_cons.mp hx with h | h
      · subst h
        simp only [List.find?_cons, beq_self_eq_true]
      · have hne : (f y == f x) = false := by
          refine Bool.eq_false_iff.mpr ?_
          intro hc
          exact (mem_dedupFirst_not_seen h)
            (beq_iff_eq.mp hc ▸ List.mem_cons_self _ _)
        simp only [List.find?_cons, hne]
        exact ih h

theorem mem_dedupFirst_of_find? {f : α → Val} {l : List α} {x : α} :
    ∀ {seen : List Val}, x ∈ l → f x ∉ seen →
      l.find? (fun y => f y == f x) = some x → x ∈ dedupFirst f seen l := by
  induction l with
  | nil => intro seen hx; exact absurd hx (List.not_mem_nil x)
  | cons y ys ih =>
    intro seen hx hseen hf
    by_cases hp : (f y == f x) = true
    · simp only [List.find?_cons, hp] at hf
      have hxy : y = x := Option.some.inj hf
      subst hxy
      rw [dedupFirst, if_neg hseen]
      exact List.mem_cons_self _ _
    · have hp' : (f y == f x) = false := Bool.eq_false_iff.mpr hp
      simp only [List.find?_cons, hp'] at hf
      have hne : f y ≠ f x := fun h => hp (beq_iff_eq.mpr h)
      have hxys : x ∈ ys := by
        rcases List.mem_cons.mp hx with h | h
        · exact absurd (congrArg f h.symm) hne
        · exact h
      by_cases hy : f y ∈ seen
      · rw [dedupFirst, if_pos hy]
        exact ih hxys hseen hf
      · rw [dedupFirst, if_neg hy]
        refine List.mem_cons_of_mem _ (ih hxys ?_ hf)
        intro hc
        rcases List.mem_cons.mp hc with h | h
        · exact hne h.symm
        · exact hseen h

theorem mem_dedupFirst_id {l : List Val} {a : Val} :
    ∀ {seen : List Val}, a ∈ l → a ∉ seen → a ∈ dedupFirst id seen l := by
  induction l with
  | nil => intro seen hx; exact absurd hx (List.not_mem_nil a)
  | cons y ys ih =>
    intro seen ha hseen
    rcases List.mem_cons.mp ha with h | h
    · subst h
      rw [dedupFirst]
      simp only [id_eq]
      rw [if_neg hseen]
      exact List.mem_cons_self _ _
    · by_cases hy : (id y : Val) ∈ seen
      · rw [dedupFirst, if_pos hy]
        exact ih h hseen
      · rw [dedupFirst, if_neg hy]
        by_cases hay : a = y
        · subst hay
          exact List.mem_cons_self _ _
        · refine List.mem_cons_of_mem _ (ih h ?_)
          simp only [id_eq]
          intro hc
          rcases List.mem_cons.mp hc with hcc | hcc
          · exact hay hcc
          · exact hseen hcc

/-! Counting lemmas: the counts of the distinct values of a list sum to at
most the length of the list. -/

theorem count_add_filter_length_le {v : Val} {seen : List Val} (hv : v ∉ seen)
    (vs : List Val) :
    vs.count v + (vs.filter (fun u => decide (u ∉ v :: seen))).length ≤
      (vs.filter (fun u => decide (u ∉ seen))).length := by
  induction vs with
  | nil => simp
  | cons a vs ih =>
    by_cases ha : a = v
    · subst ha
      have h1 : (a :: vs).count a = vs.count a + 1 := List.count_cons_self a vs
      have h2 : ((a :: vs).filter (fun u => decide (u ∉ a :: seen))) =
          vs.filter (fun u => decide (u ∉ a :: seen)) := by
        simp [List.filter]
      have h3 : ((a :: vs).filter (fun u => decide (u ∉ seen))) =
          a :: vs.filter (fun u => decide (u ∉ seen)) := by
        simp [List.filter, hv]
      rw [h1, h2, h3]
      simp only [List.length_cons]
      omega
    · have h1 : (a :: vs).count v = vs.count v :=
        List.count_cons_of_ne (fun h => ha h.symm) vs
      by_cases hs : a ∈ seen
      · have h2 : ((a :: vs).filter (fun u => decide (u ∉ v :: seen))) =
            vs.filter (fun u => decide (u ∉ v :: seen)) := by
          simp [List.filter, List.mem_cons, hs]
        have h3 : ((a :: vs).filter (fun u => decide (u ∉ seen))) =
            vs.filter (fun u => decide (u ∉ seen)) := by
          simp [List.filter, hs]
        rw [h1, h2, h3]
        exact ih
      · have h2 : ((a :: vs).filter (fun u => decide (u ∉ v :: seen))) =
            a :: vs.filter (fun u => decide (u ∉ v :: seen)) := by
          simp [List.filter, List.mem_cons, hs, ha]
        have h3 : ((a :: vs).filter (fun u => decide (u ∉ seen))) =
            a :: vs.filter (fun u => decide (u ∉ seen)) := by
          simp [List.filter, hs]
        rw [h1, h2, h3]
        simp only [List.length_cons]
        omega

theorem sum_counts_dedupFirst_le (seen : List Val) (l : List Val) :
    ((dedupFirst id seen l).map (fun v => l.count v)).sum ≤
      (l.filter (fun u => decide (u ∉ seen))).length := by
  induction l generalizing seen with
  | nil => simp [dedupFirst]
  | cons v vs ih =>
    by_cases hv : v ∈ seen
    · rw [dedupFirst]
      simp only [id_eq]
      rw [if_pos hv]
      have hmap : (dedupFirst id seen vs).map (fun u => (v :: vs).count u) =
          (dedupFirst id seen vs).map (fun u => vs.count u) := by
        refine List.map_congr_left ?_
        intro u hu
        have huv : u ≠ v := by
          intro h
          exact (mem_dedupFirst_not_seen hu) (by simpa [h] using hv)
        exact List.count_cons_of_ne huv vs
      have hfil : ((v :: vs).filter (fun u => decide (u ∉ seen))) =
          vs.filter (fun u => decide (u ∉ seen)) := by
        simp [List.filter, hv]
      rw [hmap, hfil]
      exact ih seen
    · rw [dedupFirst]
      simp only [id_eq]
      rw [if_neg hv]
      have hmap : (dedupFirst id (v :: seen) vs).map (fun u => (v :: vs).count u) =
          (dedupFirst id (v :: seen) vs).map (fun u => vs.count u) := by
        refine List.map_congr_left ?_
        intro u hu
        have huv : u ≠ v := by
          intro h
          exact (mem_dedupFirst_not_seen hu) (by simp [h])
        exact List.count_cons_of_ne huv vs
      have hfil : ((v :: vs).filter (fun u => decide (u ∉ seen))) =
          v :: vs.filter (fun u => decide (u ∉ seen)) := by
        simp [List.filter, hv]
      rw [List.map_cons, hfil]
      simp only [List.sum_cons, List.length_cons, hmap]
      have hcv : (v :: vs).count v = vs.count v + 1 := List.count_cons_self v vs
      rw [hcv]
      have h1 := ih (v :: seen)
      have h2 := count_add_filter_length_le hv vs
      omega

/-! Order instances for the sort relations. -/

instance : IsTotal Val Val.le := by
  constructor
  intro a b
  cases a <;> cases b <;> simp [Val.le, Val.leB] <;> exact le_total _ _

instance : IsTrans Val Val.le := by
  constructor
  intro a b c hab hbc
  cases a <;> cases b <;> cases c <;>
    simp only [Val.le, Val.leB, decide_eq_true_eq] at * <;>
    first
    | rfl
    | exact le_trans hab hbc
    | exact absurd hab Bool.false_ne_true
    | exact absurd hbc Bool.false_ne_true

instance (vals : List Val) : IsTotal (Val × Nat) (countOrd vals) := by
  constructor
  intro a b
  unfold countOrd
  rcases Nat.lt_trichotomy a.2 b.2 with h | h | h
  · right; left; exact h
  · rcases Nat.le_total (vals.indexOf a.1) (vals.indexOf b.1) with hi | hi
    · left; right; exact ⟨h, hi⟩
    · right; right; exact ⟨h.symm, hi⟩
  · left; left; exact h

instance (vals : List Val) : IsTrans (Val × Nat) (countOrd vals) := by
  constructor
  intro a b c hab hbc
  unfold countOrd at *
  rcases hab with h1 | ⟨h1, h2⟩ <;> rcases hbc with h3 | ⟨h3, h4⟩
  · left; omega
  · left; omega
  · left; omega
  · right; exact ⟨h1.trans h3, h2.trans h4⟩

/-! Helper lemmas about column value lists. -/

theorem mem_presentVals_ne_null {t : Table} {c : String} {v : Val}
    (hv : v ∈ presentVals t c) : v ≠ Val.null := by
  have := (List.mem_filter.mp hv).2
  simpa using this

theorem mem_presentVals_of {t : Table} {c : String} {v : Val}
    (h1 : v ∈ colVals t c) (h2 : v ≠ Val.null) : v ∈ presentVals t c := by
  refine List.mem_filter.mpr ⟨h1, ?_⟩
  simpa using h2

theorem presentVals_dropNullRows (t : Table) (c : String) :
    presentVals (dropNullRows t c) c = presentVals t c := by
  simp only [presentVals, colVals, dropNullRows]
  induction t.rows with
  | nil => rfl
  | cons r rs ih =>
    by_cases h : getVal r c = Val.null <;>
      simp only [List.filter, List.map, h] <;> simp [h] <;>
      simpa using ih

theorem groupRows_dropNullRows {k : Val} (hk : k ≠ Val.null) (t : Table) (g : String) :
    groupRows (dropNullRows t g) g k = groupRows t g k := by
  simp only [groupRows, dropNullRows, List.filter_filter]
  refine List.filter_congr ?_
  intro r _
  by_cases h : getVal r g = k
  · simp [h, hk]
  · simp [h]

/-! Structural helpers for tables and filters. -/

theorem tableExt {a b : Table} (h1 : a.cols = b.cols) (h2 : a.rows = b.rows) : a = b := by
  cases a; cases b; simp_all

theorem filter_idem (p : α → Bool) (l : List α) :
    (l.filter p).filter p = l.filter p := by
  rw [List.filter_filter]
  refine List.filter_congr ?_
  intro a _
  by_cases h : p a <;> simp [h]

theorem cleanTable_cols (t : Table) : (cleanTable t).cols = t.cols := rfl

theorem cleanTable_rows (t : Table) :
    (cleanTable t).rows =
      (if "restaurant_id" ∈ t.cols
        then dedupFirst (fun r => getVal r "restaurant_id") [] t.rows
        else t.rows).filter (rowComplete t.cols) := rfl

/-- C7: for every table and column, filtering with an empty set of allowed
values returns the table unchanged (an empty selection is no restriction,
mirroring the falsy multiselect guard of line 43). -/
theorem filter_by_values_empty_selection (t : Table) (col : String) :
    filter_by_values t col [] = t := by
  unfold filter_by_values
  simp

/-- C8: the cleaning operation is idempotent; cleaning an already cleaned
table changes nothing, because the surviving rows have pairwise distinct key
values and already pass the dropna check. -/
theorem clean_idempotent (t : Table) : cleanTable (cleanTable t) = cleanTable t := by
  refine tableExt rfl ?_
  rw [cleanTable_rows (cleanTable t), cleanTable_cols, cleanTable_rows t]
  by_cases hkey : "restaurant_id" ∈ t.cols
  · rw [if_pos hkey, if_pos hkey]
    have hpw : ((dedupFirst (fun r => getVal r "restaurant_id") [] t.rows).filter
        (rowComplete t.cols)).Pairwise
        (fun a b => getVal a "restaurant_id" ≠ getVal b "restaurant_id") :=
      List.Pairwise.sublist (List.filter_sublist _) (dedupFirst_pairwise _ _ _)
    rw [dedupFirst_eq_self hpw (fun x _ => List.not_mem_nil _)]
    exact filter_idem _ _
  · rw [if_neg hkey, if_neg hkey]
    exact filter_idem _ _

/-- C9: cleaning keeps the column set, never adds rows, preserves the order
of the surviving rows, and keeps exactly the rows that are the first
occurrence of their key value (when the key column exists) and have no
missing value in a required column that the table has; required columns the
table lacks are ignored by `rowComplete`. -/
theorem clean_characterization (t : Table) :
    (cleanTable t).cols = t.cols ∧
    (cleanTable t).rows.Sublist t.rows ∧
    (cleanTable t).rows.length ≤ t.rows.length ∧
    ∀ r : Row, r ∈ (cleanTable t).rows ↔
      ((if "restaurant_id" ∈ t.cols
        then t.rows.find?
          (fun r2 => getVal r2 "restaurant_id" == getVal r "restaurant_id") = some r
        else r ∈ t.rows) ∧ rowComplete t.cols r = true) := by
  have hsub : (cleanTable t).rows.Sublist t.rows := by
    rw [cleanTable_rows]
    refine (List.filter_sublist _).trans ?_
    by_cases hkey : "restaurant_id" ∈ t.cols
    · rw [if_pos hkey]; exact dedupFirst_sublist _ _ _
    · rw [if_neg hkey]
  refine ⟨rfl, hsub, hsub.length_le, ?_⟩
  intro r
  rw [cleanTable_rows]
  by_cases hkey : "restaurant_id" ∈ t.cols
  · rw [if_pos hkey, if_pos hkey]
    constructor
    · intro hr
      obtain ⟨hmem, hcomp⟩ := List.mem_filter.mp hr
      exact ⟨find?_eq_of_mem_dedupFirst hmem, hcomp⟩
    · rintro ⟨hfind, hcomp⟩
      refine List.mem_filter.mpr ⟨?_, hcomp⟩
      exact mem_dedupFirst_of_find? (List.mem_of_find?_eq_some hfind)
        (List.not_mem_nil _) hfind
  · rw [if_neg hkey, if_neg hkey]
    exact List.mem_filter

/-- C3 counterexample: after the drop_duplicates statement (inplace=True) the
heap slot that held the raw loaded table no longer holds it, so the raw table
is mutated after creation, refuting the claim at this concrete input. -/
theorem clean_mutates_loaded_table_cex :
    heapGet (dedup_stmt (load_stmt sampleDupKeys)).heap 0 ≠ sampleDupKeys := by
  decide

/-- C3 amended: the cleaning statements write their result in place over the
slot of the loaded table (df still refers to slot 0, which afterwards holds
`cleanTable t` instead of the raw `t`), while the filter statement allocates
a new table and leaves slot 0 unchanged. -/
theorem pipeline_heap_behavior (t : Table) (sel : List Val) :
    (dropna_stmt (dedup_stmt (load_stmt t))).dfRef = 0 ∧
    heapGet (dropna_stmt (dedup_stmt (load_stmt t))).heap 0 = cleanTable t ∧
    heapGet (filter_stmt sel (dropna_stmt (dedup_stmt (load_stmt t)))).heap 0 = cleanTable t := by
  unfold load_stmt dedup_stmt dropna_stmt filter_stmt heapGet heapSet
  by_cases hkey : "restaurant_id" ∈ t.cols <;>
    simp [hkey, List.getD, cleanTable] <;>
    split <;>
    simp [List.getD]

/-- C6 counterexample: with a non-empty selection but a filter column the
table does not have, the filter returns the table unchanged, and the returned
row does not have its value in that column inside the allowed set; the claim
as universally stated is false at this input. -/
theorem filter_by_values_absent_column_cex :
    ∃ r ∈ (filter_by_values sampleA "b" [Val.num 1]).rows,
      getVal r "b" ∉ [Val.num 1] := by
  decide

/-- C6 amended: for every table containing the filter column and non-empty
allowed set, every returned row has its value in the filter column inside the
allowed set, and the output rows form an order-preserving subsequence of the
input rows (so filtering never adds rows). -/
theorem filter_by_values_spec (t : Table) (col : String) (allowed : List Val)
    (h1 : col ∈ t.cols) (h2 : allowed ≠ []) :
    (∀ r ∈ (filter_by_values t col allowed).rows, getVal r col ∈ allowed) ∧
    (filter_by_values t col allowed).rows.Sublist t.rows := by
  unfold filter_by_values
  rw [if_pos h1, if_pos h2]
  constructor
  · intro r hr
    have hc := (List.mem_filter.mp hr).2
    simpa using hc
  · exact List.filter_sublist _

/-- C6 witness: the amended filter property at a concrete table, column and
selection. -/
theorem filter_by_values_spec_witness :
    (∀ r ∈ (filter_by_values sampleCity "city" [Val.str "A"]).rows,
      getVal r "city" ∈ [Val.str "A"]) ∧
    (filter_by_values sampleCity "city" [Val.str "A"]).rows.Sublist sampleCity.rows :=
  filter_by_values_spec sampleCity "city" [Val.str "A"] (by decide) (by decide)

/-! The value_counts core lemma behind the top-N frequency builder. -/

theorem value_counts_take_spec (vals : List Val) (n : Nat) :
    ((List.insertionSort (countOrd vals)
        ((dedupFirst id [] vals).map (fun v => (v, vals.count v)))).take n).length ≤ n ∧
    ((List.insertionSort (countOrd vals)
        ((dedupFirst id [] vals).map (fun v => (v, vals.count v)))).take n).Pairwise
      (fun a b => b.2 < a.2 ∨ (a.2 = b.2 ∧ vals.indexOf a.1 < vals.indexOf b.1)) ∧
    (∀ p ∈ (List.insertionSort (countOrd vals)
        ((dedupFirst id [] vals).map (fun v => (v, vals.count v)))).take n,
      p.2 = vals.count p.1) ∧
    (((List.insertionSort (countOrd vals)
        ((dedupFirst id [] vals).map (fun v => (v, vals.count v)))).take n).map
      (fun p => p.2)).sum ≤ vals.length := by
  have hperm := List.perm_insertionSort (countOrd vals)
    ((dedupFirst id [] vals).map (fun v => (v, vals.count v)))
  have hmemvals : ∀ p ∈ List.insertionSort (countOrd vals)
      ((dedupFirst id [] vals).map (fun v => (v, vals.count v))),
      p.1 ∈ vals ∧ p.2 = vals.count p.1 := by
    intro p hp
    have hp2 : p ∈ (dedupFirst id [] vals).map (fun v => (v, vals.count v)) :=
      hperm.mem_iff.mp hp
    obtain ⟨v, hv, heq⟩ := List.mem_map.mp hp2
    have hv2 : v ∈ vals := (dedupFirst_sublist id [] vals).subset hv
    subst heq
    exact ⟨hv2, rfl⟩
  refine ⟨List.length_take_le n _, ?_, ?_, ?_⟩
  · have hsorted : (List.insertionSort (countOrd vals)
        ((dedupFirst id [] vals).map (fun v => (v, vals.count v)))).Pairwise
        (countOrd vals) :=
      List.sorted_insertionSort (countOrd vals) _
    have hnodup : ((dedupFirst id [] vals).map (fun v => (v, vals.count v))).Pairwise
        (fun p q : Val × Nat => p.1 ≠ q.1) := by
      refine List.Pairwise.map _ ?_ (dedupFirst_pairwise id [] vals)
      intro a b hab
      simpa using hab
    have hsortednodup : (List.insertionSort (countOrd vals)
        ((dedupFirst id [] vals).map (fun v => (v, vals.count v)))).Pairwise
        (fun p q : Val × Nat => p.1 ≠ q.1) :=
      (List.Perm.pairwise_iff (fun h => h.symm) hperm).mpr hnodup
    have hcomb := List.Pairwise.and hsorted hsortednodup
    have hstrict : (List.insertionSort (countOrd vals)
        ((dedupFirst id [] vals).map (fun v => (v, vals.count v)))).Pairwise
        (fun a b => b.2 < a.2 ∨ (a.2 = b.2 ∧ vals.indexOf a.1 < vals.indexOf b.1)) := by
      refine List.Pairwise.imp_of_mem ?_ hcomb
      intro a b ha hb hab
      rcases hab with ⟨hord, hne⟩
      rcases hord with hlt | ⟨heq, hle⟩
      · exact Or.inl hlt
      · refine Or.inr ⟨heq, lt_of_le_of_ne hle ?_⟩
        intro hidx
        exact hne ((List.indexOf_inj (hmemvals a ha).1 (hmemvals b hb).1).mp hidx)
    exact List.Pairwise.sublist (List.take_sublist n _) hstrict
  · intro p hp
    exact (hmemvals p ((List.take_sublist n _).subset hp)).2
  · have hsub : (((List.insertionSort (countOrd vals)
        ((dedupFirst id [] vals).map (fun v => (v, vals.count v)))).take n).map
        (fun p => p.2)).Sublist
        (((List.insertionSort (countOrd vals)
        ((dedupFirst id [] vals).map (fun v => (v, vals.count v))))).map
        (fun p => p.2)) :=
      (List.take_sublist n _).map _
    have h1 : (((List.insertionSort (countOrd vals)
        ((dedupFirst id [] vals).map (fun v => (v, vals.count v)))).take n).map
        (fun p => p.2)).sum ≤
        (((List.insertionSort (countOrd vals)
        ((dedupFirst id [] vals).map (fun v => (v, vals.count v))))).map
        (fun p => p.2)).sum :=
      List.Sublist.sum_le_sum hsub (fun a _ => Nat.zero_le a)
    have h2 : (((List.insertionSort (countOrd vals)
        ((dedupFirst id [] vals).map (fun v => (v, vals.count v))))).map
        (fun p => p.2)).sum =
        (((dedupFirst id [] vals).map (fun v => (v, vals.count v))).map
        (fun p => p.2)).sum :=
      (hperm.map _).sum_eq
    have h3 : ((dedupFirst id [] vals).map (fun v => (v, vals.count v))).map
        (fun p : Val × Nat => p.2) =
        (dedupFirst id [] vals).map (fun v => vals.count v) := by
      rw [List.map_map]
      rfl
    have h4 := sum_counts_dedupFirst_le [] vals
    have h5 : vals.filter (fun u => decide (u ∉ ([] : List Val))) = vals := by
      refine List.filter_eq_self.mpr ?_
      intro a _
      simp
    rw [h5] at h4
    rw [h2, h3] at h1
    exact h1.trans h4

theorem top_n_frequency_of_mem {t : Table} {col : String} (n : Nat) (h : col ∈ t.cols) :
    top_n_frequency t col n =
      (List.insertionSort (countOrd (presentVals t col))
        ((dedupFirst id [] (presentVals t col)).map
          (fun v => (v, (presentVals t col).count v)))).take n := by
  unfold top_n_frequency
  rw [if_pos h]

theorem top_n_frequency_of_not_mem {t : Table} {col : String} (n : Nat) (h : col ∉ t.cols) :
    top_n_frequency t col n = [] := by
  unfold top_n_frequency
  rw [if_neg h]

/-- C5: the top-N frequency builder returns at most n pairs, sorted by
strictly descending count with ties broken by the first occurrence of the
value in the (non-missing) column data, each pair carrying the exact
occurrence count of its value, and the counts sum to at most the number of
rows of the table. -/
theorem top_n_frequency_spec (t : Table) (col : String) (n : Nat) (h : col ∈ t.cols) :
    (top_n_frequency t col n).length ≤ n ∧
    (top_n_frequency t col n).Pairwise (fun a b =>
      b.2 < a.2 ∨ (a.2 = b.2 ∧
        (presentVals t col).indexOf a.1 < (presentVals t col).indexOf b.1)) ∧
    (∀ p ∈ top_n_frequency t col n, p.2 = (presentVals t col).count p.1) ∧
    ((top_n_frequency t col n).map (fun p => p.2)).sum ≤ t.rows.length := by
  have hlen : (presentVals t col).length ≤ t.rows.length := by
    have := List.length_filter_le (fun v => decide (v ≠ Val.null)) (colVals t col)
    simpa [presentVals, colVals] using this
  obtain ⟨h1, h2, h3, h4⟩ := value_counts_take_spec (presentVals t col) n
  rw [top_n_frequency_of_mem n h]
  exact ⟨h1, h2, h3, h4.trans hlen⟩

/-- C5 witness: the top-N frequency property instantiated at a concrete
table. -/
theorem top_n_frequency_spec_witness :
    (top_n_frequency sampleCity "city" 10).length ≤ 10 ∧
    (top_n_frequency sampleCity "city" 10).Pairwise (fun a b =>
      b.2 < a.2 ∨ (a.2 = b.2 ∧
        (presentVals sampleCity "city").indexOf a.1 <
          (presentVals sampleCity "city").indexOf b.1)) ∧
    (∀ p ∈ top_n_frequency sampleCity "city" 10,
      p.2 = (presentVals sampleCity "city").count p.1) ∧
    ((top_n_frequency sampleCity "city" 10).map (fun p => p.2)).sum ≤
      sampleCity.rows.length :=
  top_n_frequency_spec sampleCity "city" 10 (by decide)

theorem grouped_mean_eq (t : Table) (g v : String) :
    grouped_mean t g v =
      (List.insertionSort Val.le (dedupFirst id [] (presentVals t g))).map
        (fun k => (k, meanVal ((groupRows t g k).map (fun r => getVal r v)))) := rfl

theorem grouped_mean_keys (t : Table) (g v : String) :
    (grouped_mean t g v).map Prod.fst =
      List.insertionSort Val.le (dedupFirst id [] (presentVals t g)) := by
  rw [grouped_mean_eq, List.map_map]
  exact List.map_id _

/-- C4 counterexample: on a concrete table whose price_range keys first occur
in the order 2, 1, the grouped mean emits its rows with keys in ascending
key order 1, 2, not in first-occurrence order, refuting the ordering stated
by the claim. -/
theorem grouped_mean_order_cex :
    (grouped_mean samplePriceRating "price_range" "aggregate_rating").map Prod.fst ≠
      dedupFirst id [] (presentVals samplePriceRating "price_range") := by
  decide

/-- C4 amended: for every table containing the group and value columns, the
grouped mean has exactly one output row per distinct non-missing group key
(membership and nodup below), each row carrying the mean of the value column
over the rows of its group with missing values ignored, and the rows are
ordered by strictly ascending group key (pandas groupby sorts its keys), not
by first occurrence. -/
theorem grouped_mean_characterization (t : Table) (g v : String)
    (_hg : g ∈ t.cols) (_hv : v ∈ t.cols) :
    (∀ k : Val, k ∈ (grouped_mean t g v).map Prod.fst ↔
      (k ≠ Val.null ∧ k ∈ colVals t g)) ∧
    ((grouped_mean t g v).map Prod.fst).Nodup ∧
    (grouped_mean t g v).Pairwise (fun a b => Val.ltv a.1 b.1) ∧
    (∀ p ∈ grouped_mean t g v,
      p.2 = meanVal ((groupRows t g p.1).map (fun r => getVal r v))) := by
  refine ⟨?_, ?_, ?_, ?_⟩
  · intro k
    rw [grouped_mean_keys, List.mem_insertionSort]
    constructor
    · intro hk
      have hk2 : k ∈ presentVals t g := (dedupFirst_sublist id [] _).subset hk
      exact ⟨mem_presentVals_ne_null hk2, (List.mem_filter.mp hk2).1⟩
    · rintro ⟨hne, hcv⟩
      exact mem_dedupFirst_id (mem_presentVals_of hcv hne) (List.not_mem_nil _)
  · rw [grouped_mean_keys]
    refine (List.Perm.nodup_iff (List.perm_insertionSort _ _)).mpr ?_
    simpa using dedupFirst_pairwise id [] (presentVals t g)
  · rw [grouped_mean_eq]
    refine List.Pairwise.map _ (fun a b hab => hab) ?_
    have hs : (List.insertionSort Val.le (dedupFirst id [] (presentVals t g))).Pairwise
        Val.le :=
      List.sorted_insertionSort Val.le _
    have hnd : (List.insertionSort Val.le (dedupFirst id [] (presentVals t g))).Pairwise
        Ne := by
      refine (List.Perm.pairwise_iff (fun h => h.symm) (List.perm_insertionSort _ _)).mpr ?_
      simpa using dedupFirst_pairwise id [] (presentVals t g)
    exact List.Pairwise.and hs hnd
  · intro p hp
    rw [grouped_mean_eq] at hp
    obtain ⟨k, _, heq⟩ := List.mem_map.mp hp
    subst heq
    rfl

/-- C4 witness: the amended grouped-mean property at a concrete table. -/
theorem grouped_mean_characterization_witness :
    (∀ k : Val, k ∈ (grouped_mean samplePriceRating "price_range"
        "aggregate_rating").map Prod.fst ↔
      (k ≠ Val.null ∧ k ∈ colVals samplePriceRating "price_range")) ∧
    ((grouped_mean samplePriceRating "price_range" "aggregate_rating").map
      Prod.fst).Nodup ∧
    (grouped_mean samplePriceRating "price_range" "aggregate_rating").Pairwise
      (fun a b => Val.ltv a.1 b.1) ∧
    (∀ p ∈ grouped_mean samplePriceRating "price_range" "aggregate_rating",
      p.2 = meanVal ((groupRows samplePriceRating "price_range" p.1).map
        (fun r => getVal r "aggregate_rating"))) :=
  grouped_mean_characterization samplePriceRating "price_range" "aggregate_rating"
    (by decide) (by decide)

/-- C10: rows with a missing value in the keyed column contribute nothing to
the derived series: deleting them beforehand changes neither the top-N
frequency result nor the grouped mean, and no missing value ever appears as
an output value or group key. -/
theorem missing_keys_excluded (t : Table) (c g v : String) (n : Nat) :
    top_n_frequency (dropNullRows t c) c n = top_n_frequency t c n ∧
    (∀ p ∈ top_n_frequency t c n, p.1 ≠ Val.null) ∧
    grouped_mean (dropNullRows t g) g v = grouped_mean t g v ∧
    (∀ p ∈ grouped_mean t g v, p.1 ≠ Val.null) := by
  refine ⟨?_, ?_, ?_, ?_⟩
  · by_cases hc : c ∈ t.cols
    · have hc2 : c ∈ (dropNullRows t c).cols := hc
      rw [top_n_frequency_of_mem n hc2, top_n_frequency_of_mem n hc,
        presentVals_dropNullRows]
    · have hc2 : c ∉ (dropNullRows t c).cols := hc
      rw [top_n_frequency_of_not_mem n hc2, top_n_frequency_of_not_mem n hc]
  · intro p hp
    by_cases hc : c ∈ t.cols
    · rw [top_n_frequency_of_mem n hc] at hp
      have hp2 := (List.take_sublist n _).subset hp
      have hp3 := (List.perm_insertionSort _ _).mem_iff.mp hp2
      obtain ⟨w, hw, heq⟩ := List.mem_map.mp hp3
      have hwp : w ∈ presentVals t c := (dedupFirst_sublist id [] _).subset hw
      subst heq
      exact mem_presentVals_ne_null hwp
    · rw [top_n_frequency_of_not_mem n hc] at hp
      exact absurd hp (List.not_mem_nil p)
  · rw [grouped_mean_eq, grouped_mean_eq, presentVals_dropNullRows]
    refine List.map_congr_left ?_
    intro k hk
    have hk2 : k ∈ dedupFirst id [] (presentVals t g) :=
      (List.mem_insertionSort _).mp hk
    have hkne : k ≠ Val.null :=
      mem_presentVals_ne_null ((dedupFirst_sublist id [] _).subset hk2)
    rw [groupRows_dropNullRows hkne]
  · intro p hp
    rw [grouped_mean_eq] at hp
    obtain ⟨k, hk, heq⟩ := List.mem_map.mp hp
    have hk2 : k ∈ dedupFirst id [] (presentVals t g) :=
      (List.mem_insertionSort _).mp hk
    subst heq
    exact mem_presentVals_ne_null ((dedupFirst_sublist id [] _).subset hk2)

/-- C1 counterexample: on the empty table that has the rating and cost
columns, the metrics block raises (int() of the NaN cost mean) instead of
returning row_count 0 with sentinels, refuting the claim at this input. -/
theorem compute_metrics_empty_cost_cex :
    compute_metrics sampleEmptyRatingCost =
      Except.error "ValueError: cannot convert float NaN to integer" := rfl

/-- C1 amended: when the rating column is present and the cost column, if
present, has at least one numeric value, the metrics block succeeds, reports
row_count equal to the table length, and sentinels the rating mean (none,
the NaN of an empty mean) whenever the table is empty or all rating values
are missing; with the rating column absent, or with the cost mean evaluated
on no numeric data, it raises instead. -/
theorem compute_metrics_ok_characterization (t : Table)
    (h1 : "aggregate_rating" ∈ t.cols)
    (h2 : "average_cost_for_two" ∈ t.cols →
      ∃ r ∈ t.rows, (getVal r "average_cost_for_two").isNum = true) :
    ∃ m : Metrics, compute_metrics t = Except.ok m ∧
      m.row_count = t.rows.length ∧
      (t.rows = [] → m.avg_rating = none) ∧
      ((numVals t "aggregate_rating").isEmpty = true → m.avg_rating = none) := by
  simp only [compute_metrics]
  rw [if_pos h1]
  by_cases hc : "average_cost_for_two" ∈ t.cols
  · obtain ⟨r, hr, hnum⟩ := h2 hc
    have hne : (numVals t "average_cost_for_two").isEmpty = false := by
      cases hval : getVal r "average_cost_for_two" with
      | num q =>
        have hq : q ∈ numVals t "average_cost_for_two" := by
          refine List.mem_filterMap.mpr ⟨Val.num q, ?_, rfl⟩
          rw [← hval]
          exact List.mem_map.mpr ⟨r, hr, rfl⟩
        exact List.isEmpty_eq_false.mpr (List.ne_nil_of_mem hq)
      | str s => rw [hval] at hnum; simp [Val.isNum] at hnum
      | null => rw [hval] at hnum; simp [Val.isNum] at hnum
    rw [if_pos hc, if_neg (by simp [hne])]
    refine ⟨_, rfl, rfl, ?_, ?_⟩
    · intro hrows
      exact absurd (hrows ▸ hr) (List.not_mem_nil r)
    · intro hre
      simp only [hre]
      rfl
  · rw [if_neg hc]
    refine ⟨_, rfl, rfl, ?_, ?_⟩
    · intro hrows
      have hnil : numVals t "aggregate_rating" = [] := by
        simp [numVals, colVals, hrows]
      simp [hnil]
    · intro hre
      simp only [hre]
      rfl

/-- C1 witness: the amended metrics property at the empty table having only
the rating column: the metrics block returns row_count 0 and the sentinel
rating mean. -/
theorem compute_metrics_ok_characterization_witness :
    ∃ m : Metrics, compute_metrics sampleEmptyRating = Except.ok m ∧
      m.row_count = sampleEmptyRating.rows.length ∧
      (sampleEmptyRating.rows = [] → m.avg_rating = none) ∧
      ((numVals sampleEmptyRating "aggregate_rating").isEmpty = true →
        m.avg_rating = none) :=
  compute_metrics_ok_characterization sampleEmptyRating (by decide) (by decide)

/-- C2 counterexample: the rating-distribution histogram stage is invoked
with no presence guard, so on a table without the rating column it errors
rather than producing an empty no-op result, refuting the claim. -/
theorem rating_hist_absent_column_cex :
    rating_hist_stage sampleCity =
      Except.error "ValueError: aggregate_rating is not a column of the data frame" := rfl

/-- C2 amended: the series builders that sit under a presence guard for every
column they touch (top cities, top cuisines, and the price builder guard
itself) are no-ops when the guarded column is absent, but the rating
histogram is invoked unconditionally and errors when the rating column is
absent, and the price builder errors when price_range is present while the
rating column is absent. -/
theorem series_stage_absent_column_behavior (t : Table) :
    ("city" ∉ t.cols → top_cities_stage t = none) ∧
    ("cuisines" ∉ t.cols → top_cuisines_stage t = none) ∧
    ("aggregate_rating" ∉ t.cols →
      rating_hist_stage t =
        Except.error "ValueError: aggregate_rating is not a column of the data frame") ∧
    ("price_range" ∉ t.cols → price_rating_stage t = Except.ok none) ∧
    ("price_range" ∈ t.cols → "aggregate_rating" ∉ t.cols →
      price_rating_stage t = Except.error "KeyError: aggregate_rating") := by
  refine ⟨?_, ?_, ?_, ?_, ?_⟩
  · intro h
    unfold top_cities_stage
    rw [if_neg h]
  · intro h
    unfold top_cuisines_stage
    rw [if_neg h]
  · intro h
    unfold rating_hist_stage
    rw [if_neg h]
  · intro h
    unfold price_rating_stage
    rw [if_neg h]
  · intro h1 h2
    unfold price_rating_stage
    rw [if_pos h1, if_neg h2]

/-- C2 witness: the stage behaviours at concrete tables lacking the relevant
columns. -/
theorem series_stage_absent_column_behavior_witness :
    top_cities_stage sampleMisc = none ∧
    top_cuisines_stage sampleMisc = none ∧
    rating_hist_stage sampleMisc =
      Except.error "ValueError: aggregate_rating is not a column of the data frame" ∧
    price_rating_stage sampleMisc = Except.ok none ∧
    price_rating_stage samplePriceOnly = Except.error "KeyError: aggregate_rating" :=
  ⟨(series_stage_absent_column_behavior sampleMisc).1 (by decide),
   (series_stage_absent_column_behavior sampleMisc).2.1 (by decide),
   (series_stage_absent_column_behavior sampleMisc).2.2.1 (by decide),
   (series_stage_absent_column_behavior sampleMisc).2.2.2.1 (by decide),
   (series_stage_absent_column_behavior samplePriceOnly).2.2.2.2 (by decide) (by decide)⟩
